import Mathlib

/-!
Verification development for `convert_secrets.py`: a shallow embedding of the
secret-report conversion pipeline (report parser, deduplicator/classifier,
identity resolver and the three artifact generators) together with theorems
about its behaviour.

Modelling conventions:
* Python strings are Lean `String`s; the handful of Python string primitives
  the script uses (`in`, `startswith`, `strip`, `rstrip`, `split(':', 1)`,
  `replace`, `'\n'.join`, `lower`) are reimplemented below over `String.data`.
  Case mapping and whitespace classification follow `Char.toLower` and
  `Char.isWhitespace`, which agree with Python on ASCII text (full Unicode
  case folding is outside this model's scope).
* The report file is modelled as the list of its lines (the script iterates
  over the open file line by line).
* Python dicts that the script mutates (`extra_info`, the `dev` environment)
  are insertion-ordered association lists with last-write-wins assignment.
* `re.search(r'extensions/([^/]+)/', path)` is modelled by an explicit
  leftmost scan (`extSearch`): at each start position the literal
  `extensions/` must match, followed by a non-empty run of non-`/` characters
  followed by `/`; the run is the captured group.
-/

namespace ConvertSecrets

/-! ### Python string primitives -/

/-- Python `pat in s` (substring containment) over character lists. -/
def containsL (pat : List Char) : List Char → Bool
  | [] => pat.isEmpty
  | c :: rest => pat.isPrefixOf (c :: rest) || containsL pat rest

/-- Python `pat in s` on strings. -/
def strContains (s pat : String) : Bool := containsL pat.data s.data

/-- Python `s.startswith(pat)`. -/
def strStartsWith (s pat : String) : Bool := pat.data.isPrefixOf s.data

/-- Python `s.strip()`: drop whitespace from both ends. -/
def strip (s : String) : String :=
  ⟨((s.data.dropWhile Char.isWhitespace).reverse.dropWhile Char.isWhitespace).reverse⟩

/-- Python `s.rstrip()`: drop trailing whitespace. -/
def rstrip (s : String) : String :=
  ⟨(s.data.reverse.dropWhile Char.isWhitespace).reverse⟩

/-- Python `s.split(':', 1)[1]`: everything after the first colon. -/
def afterColon (s : String) : String := ⟨(s.data.dropWhile (fun c => c ≠ ':')).drop 1⟩

/-- Python `s.split(':', 1)[0]`: everything before the first colon. -/
def beforeColon (s : String) : String := ⟨s.data.takeWhile (fun c => c ≠ ':')⟩

/-- Python `s.replace(pat, repl)` over character lists: replace every
non-overlapping occurrence, scanning left to right.  The recursion is fuelled
by the list length (the fuel never runs out when it starts at the length). -/
def replaceFuel (pat repl : List Char) : Nat → List Char → List Char
  | _, [] => []
  | 0, l => l
  | fuel + 1, c :: rest =>
    if pat ≠ [] ∧ pat.isPrefixOf (c :: rest) then
      repl ++ replaceFuel pat repl fuel (rest.drop (pat.length - 1))
    else
      c :: replaceFuel pat repl fuel rest

def replaceL (pat repl l : List Char) : List Char := replaceFuel pat repl l.length l

/-- Python `s.replace(pat, repl)` on strings. -/
def strReplace (s pat repl : String) : String := ⟨replaceL pat.data repl.data s.data⟩

/-- Python `sep.join(parts)`. -/
def joinSep (sep : String) : List String → String
  | [] => ""
  | [x] => x
  | x :: y :: t => x ++ sep ++ joinSep sep (y :: t)

/-- Python `'\n'.join(parts)`. -/
def joinNL (parts : List String) : String := joinSep "\n" parts

/-- Python dict assignment `d[k] = v` on an insertion-ordered association
list: replace in place when the key exists, append otherwise. -/
def dictInsert : List (String × String) → String → String → List (String × String)
  | [], k, v => [(k, v)]
  | p :: rest, k, v => if p.1 = k then (k, v) :: rest else p :: dictInsert rest k v

/-! ### Endpoint Catalog (`API_ENDPOINTS`, lines 14-123) -/

structure Endpoint where
  method : String
  url : String
  headers : List (String × String)
  body : Option String
deriving DecidableEq

/-- The placeholder marker `{{var}}` used inside the catalog's templates. -/
def varPat : String := "\x7b\x7bvar\x7d\x7d"

/-- Rendering of `json.dumps({'jsonrpc': '2.0', 'method': 'eth_blockNumber', 'params': [],
'id': 1}, indent=2)` — the body both `alchemy` and `infura` carry. -/
def ethCallBody : String :=
  "\x7b\n  \"jsonrpc\": \"2.0\",\n  \"method\": \"eth_blockNumber\",\n  \"params\": [],\n  \"id\": 1\n\x7d"

/-- API endpoint mappings for known detector types (bodies are stored
pre-serialized, as `json.dumps(body, indent=2)` renders them). -/
def API_ENDPOINTS : List (String × Endpoint) :=
  [("openai", ⟨"GET", "https://api.openai.com/v1/models",
      [("Authorization", "Bearer \x7b\x7bvar\x7d\x7d")], none⟩),
   ("telegrambottoken", ⟨"GET", "https://api.telegram.org/bot\x7b\x7bvar\x7d\x7d/getMe",
      [], none⟩),
   ("alchemy", ⟨"POST", "https://eth-mainnet.g.alchemy.com/v2/\x7b\x7bvar\x7d\x7d",
      [("Content-Type", "application/json")], some ethCallBody⟩),
   ("infura", ⟨"POST", "https://mainnet.infura.io/v3/\x7b\x7bvar\x7d\x7d",
      [("Content-Type", "application/json")], some ethCallBody⟩),
   ("openweather", ⟨"GET",
      "https://api.openweathermap.org/data/2.5/weather?q=London&appid=\x7b\x7bvar\x7d\x7d",
      [], none⟩),
   ("cryptocompare", ⟨"GET",
      "https://min-api.cryptocompare.com/data/price?fsym=BTC&tsyms=USD&api_key=\x7b\x7bvar\x7d\x7d",
      [], none⟩),
   ("weatherstack", ⟨"GET",
      "http://api.weatherstack.com/current?access_key=\x7b\x7bvar\x7d\x7d&query=London",
      [], none⟩),
   ("flickr", ⟨"GET",
      "https://api.flickr.com/services/rest/?method=flickr.test.echo&api_key=\x7b\x7bvar\x7d\x7d&format=json&nojsoncallback=1",
      [], none⟩),
   ("newsapi", ⟨"GET",
      "https://newsapi.org/v2/top-headlines?country=us&apiKey=\x7b\x7bvar\x7d\x7d",
      [], none⟩),
   ("miro", ⟨"GET", "https://api.miro.com/v1/boards",
      [("Authorization", "Bearer \x7b\x7bvar\x7d\x7d")], none⟩),
   ("twitchaccesstoken", ⟨"GET", "https://id.twitch.tv/oauth2/validate",
      [("Authorization", "OAuth \x7b\x7bvar\x7d\x7d")], none⟩),
   ("onesignal", ⟨"GET", "https://onesignal.com/api/v1/apps",
      [("Authorization", "Basic \x7b\x7bvar\x7d\x7d")], none⟩),
   ("rapidapi", ⟨"GET", "https://rapidapi.com/api/health",
      [("X-RapidAPI-Key", "\x7b\x7bvar\x7d\x7d")], none⟩),
   ("snykkey", ⟨"GET", "https://api.snyk.io/v1/user/me",
      [("Authorization", "token \x7b\x7bvar\x7d\x7d")], none⟩),
   ("ipstack", ⟨"GET", "http://api.ipstack.com/check?access_key=\x7b\x7bvar\x7d\x7d",
      [], none⟩),
   ("fixerio", ⟨"GET", "http://data.fixer.io/api/latest?access_key=\x7b\x7bvar\x7d\x7d",
      [], none⟩),
   ("sumologickey", ⟨"GET", "https://api.sumologic.com/api/v1/users",
      [("Authorization", "Basic \x7b\x7bvar\x7d\x7d")], none⟩),
   ("atlassian", ⟨"GET", "https://api.atlassian.com/me",
      [("Authorization", "Bearer \x7b\x7bvar\x7d\x7d")], none⟩)]

/-! ### SecretEntry (lines 125-156) -/

structure SecretEntry where
  detector_type : String := ""
  decoder_type : String := ""
  raw_result : String := ""
  file_path : String := ""
  line_number : String := ""
  verified : Bool := false
  extension_id : String := ""
  extra_info : List (String × String) := []
deriving DecidableEq

/-- Normalization `detector_type.lower().replace(' ', '').replace('-', '')` (lines 150, 155,
239): the normalized detector type used as catalog key and variable suffix. -/
def normDetector (s : String) : String :=
  ⟨((s.data.map Char.toLower).filter (fun c => c ≠ ' ')).filter (fun c => c ≠ '-')⟩

/-- The literal component the group-id regex looks for. -/
def extMarker : List Char := "extensions/".data

/-- One attempt of `re.search(r'extensions/([^/]+)/', ...)` at the current
position: the literal, then a maximal non-empty run of non-`/` characters,
which must be followed by `/`. -/
def extMatchAt (s : List Char) : Option (List Char) :=
  if extMarker.isPrefixOf s then
    let t := s.drop extMarker.length
    let seg := t.takeWhile (fun c => c ≠ '/')
    if seg ≠ [] ∧ t.drop seg.length ≠ [] then some seg else none
  else none

/-- The leftmost scan of `re.search` for the pattern above. -/
def extSearch : List Char → Option (List Char)
  | [] => none
  | c :: rest =>
    match extMatchAt (c :: rest) with
    | some seg => some seg
    | none => extSearch rest

/-- Method `SecretEntry.extract_extension_id` (lines 136-145). -/
def SecretEntry.extract_extension_id (e : SecretEntry) : String :=
  if e.file_path = "" then "unknown"
  else
    match extSearch e.file_path.data with
    | some seg => ⟨seg⟩
    | none => "unknown"

/-- The Python expression `self.extension_id or self.extract_extension_id()`
(lines 149, 246, 311, 334): the cached id when non-empty, else a fresh
extraction. -/
def SecretEntry.ext_id_value (e : SecretEntry) : String :=
  if e.extension_id = "" then e.extract_extension_id else e.extension_id

/-- Method `SecretEntry.get_variable_name` (lines 147-151). -/
def SecretEntry.get_variable_name (e : SecretEntry) : String :=
  e.ext_id_value ++ "_" ++ normDetector e.detector_type

/-- Method `SecretEntry.is_known_type` (lines 153-156): dict key membership. -/
def SecretEntry.is_known_type (e : SecretEntry) : Bool :=
  (API_ENDPOINTS.map Prod.fst).contains (normDetector e.detector_type)

/-! ### Report Parser (`parse_scan_file`, lines 159-214) -/

/-- The save-the-current-entry snippet the parser runs on a marker line and at
end of input (lines 170-172 and 210-212): append only a non-empty raw value. -/
def flushEntry (cur : Option SecretEntry) (acc : List SecretEntry) : List SecretEntry :=
  match cur with
  | some e => if e.raw_result ≠ "" then acc ++ [e] else acc
  | none => acc

/-- The parser's line loop (lines 165-208). -/
def parseLines : List String → Option SecretEntry → List SecretEntry → List SecretEntry
  | [], cur, acc => flushEntry cur acc
  | raw :: rest, cur, acc =>
    let line := rstrip raw
    if strContains line "Found verified result" || strContains line "Found unverified result" then
      parseLines rest (some { verified := strContains line "verified" }) (flushEntry cur acc)
    else
      match cur with
      | none => parseLines rest none acc
      | some e =>
        let e' :=
          if strStartsWith line "Detector Type:" then
            { e with detector_type := strip (afterColon line) }
          else if strStartsWith line "Decoder Type:" then
            { e with decoder_type := strip (afterColon line) }
          else if strStartsWith line "Raw result:" then
            { e with raw_result := strip (afterColon line) }
          else if strStartsWith line "File:" then
            { e with file_path := strip (afterColon line) }
          else if strStartsWith line "Line:" then
            { e with line_number := strip (afterColon line) }
          else if strContains line ":" && !(strStartsWith line " ") then
            { e with extra_info :=
                dictInsert e.extra_info (strip (beforeColon line)) (strip (afterColon line)) }
          else e
        parseLines rest (some e') acc

/-- Function `parse_scan_file` on the report's lines. -/
def parse_scan_file (lines : List String) : List SecretEntry :=
  parseLines lines none []

/-! ### Deduplicator/Classifier (`deduplicate_secrets`, lines 217-234) -/

/-- The single pass of lines 222-228, the seen-set made explicit. -/
def dedupAux (seen : List String) : List SecretEntry → List SecretEntry
  | [] => []
  | s :: rest =>
    if s.raw_result ∈ seen then dedupAux seen rest
    else s :: dedupAux (s.raw_result :: seen) rest

/-- The `unique_secrets` list of lines 222-228. -/
def unique_secrets (secrets : List SecretEntry) : List SecretEntry :=
  dedupAux [] secrets

/-- Function `deduplicate_secrets` (lines 217-234): returns `(known, unknown)`. -/
def deduplicate_secrets (secrets : List SecretEntry) :
    List SecretEntry × List SecretEntry :=
  let uniq := unique_secrets secrets
  (uniq.filter (fun s => s.is_known_type), uniq.filter (fun s => !s.is_known_type))

/-! ### HTTP-Template Writer (lines 237-287) -/

/-- The expression `'{{' + var_name + '}}'`, the reference substituted for the placeholder. -/
def varRef (var_name : String) : String := "\x7b\x7b" ++ var_name ++ "\x7d\x7d"

/-- The `lines` list `generate_http_request` builds (lines 250-274), `none`
when the detector type has no endpoint (lines 240-243). -/
def httpRequestLines (secret : SecretEntry) : Option (List String) :=
  match List.lookup (normDetector secret.detector_type) API_ENDPOINTS with
  | none => none
  | some endpoint =>
    let var_name := secret.get_variable_name
    let ext_id := secret.ext_id_value
    let detector_clean : String :=
      ⟨(secret.detector_type.data.map Char.toLower).filter (fun c => c ≠ ' ')⟩
    some (["### " ++ secret.detector_type ++ " (" ++ ext_id ++ ")",
           endpoint.method ++ " " ++ strReplace endpoint.url varPat (varRef var_name) ++ " HTTP/1.1"]
          ++ endpoint.headers.map (fun p => p.1 ++ ": " ++ strReplace p.2 varPat (varRef var_name))
          ++ [">> responses/" ++ ext_id ++ "/" ++ detector_clean ++ ".json"]
          ++ (match endpoint.body with
              | some b => ["", b]
              | none => [])
          ++ [""])

/-- Function `generate_http_request` (lines 237-276). -/
def generate_http_request (secret : SecretEntry) : String :=
  match httpRequestLines secret with
  | none => ""
  | some ls => joinNL ls

/-- Function `generate_converted_http` (lines 279-287): the artifact's full content. -/
def generate_converted_http (secrets : List SecretEntry) : String :=
  secrets.foldl (fun acc s =>
    let request := generate_http_request s
    if request ≠ "" then acc ++ request ++ "\n" else acc) ""

/-! ### Credential Store Writer (`generate_env_json`, lines 289-303) -/

/-- The `dev` object of `env_data` (lines 291-299): one dict assignment per
secret, in order. -/
def env_json_dev (secrets : List SecretEntry) : List (String × String) :=
  secrets.foldl (fun dev s => dictInsert dev s.get_variable_name s.raw_result) []

/-- Lowercase hexadecimal digit, as `json.dump` writes escapes. -/
def hexDigit (n : Nat) : Char :=
  if n < 10 then Char.ofNat (48 + n) else Char.ofNat (87 + n)

/-- How `json.dump` escapes one character inside a string literal (default
`ensure_ascii=True`; characters beyond the basic multilingual plane are out of
scope of this model). -/
def jsonEscapeChar (c : Char) : List Char :=
  if c = '"' then ['\\', '"']
  else if c = '\\' then ['\\', '\\']
  else if c = '\n' then ['\\', 'n']
  else if c = '\t' then ['\\', 't']
  else if c = '\r' then ['\\', 'r']
  else if c = Char.ofNat 8 then ['\\', 'b']
  else if c = Char.ofNat 12 then ['\\', 'f']
  else if c.toNat < 32 ∨ c.toNat ≥ 127 then
    ['\\', 'u', hexDigit (c.toNat / 4096 % 16), hexDigit (c.toNat / 256 % 16),
     hexDigit (c.toNat / 16 % 16), hexDigit (c.toNat % 16)]
  else [c]

/-- A JSON string literal. -/
def jsonStr (s : String) : String :=
  "\"" ++ String.mk (s.data.map jsonEscapeChar).flatten ++ "\""

/-- The `$schema` value of line 292. -/
def SCHEMA_URL : String :=
  "https://raw.githubusercontent.com/mistweaverco/kulala.nvim/main/schemas/http-client.env.schema.json"

/-- The characters `generate_env_json` writes: `json.dump(env_data, f,
indent=2)` followed by `f.write('\n')` (lines 301-303). -/
def env_json_text (secrets : List SecretEntry) : String :=
  let dev := env_json_dev secrets
  let devText :=
    if dev.isEmpty then "\x7b\x7d"
    else "\x7b\n"
      ++ joinSep ",\n" (dev.map (fun p => "    " ++ jsonStr p.1 ++ ": " ++ jsonStr p.2))
      ++ "\n  \x7d"
  "\x7b\n  " ++ jsonStr "$schema" ++ ": " ++ jsonStr SCHEMA_URL ++ ",\n  "
    ++ jsonStr "dev" ++ ": " ++ devText ++ "\n\x7d\n"

/-- Modelled I/O of lines 301-303: `open(output_path, 'w')` truncates the
destination immediately, then the JSON text is written front to back; if the
process fails after `i` characters the destination holds the first `i`
characters of the new text (and nothing of the previous content). -/
def env_json_crash_state (secrets : List SecretEntry) (i : Nat) : String :=
  ⟨(env_json_text secrets).data.take i⟩

/-! ### Unknown-Secrets Writer (`generate_unknown_txt`, lines 306-323) -/

/-- One record's block (lines 309-323). -/
def unknown_txt_block (secret : SecretEntry) : String :=
  "Unknown Secret Type: " ++ secret.detector_type ++ "\n"
  ++ "Extension: " ++ secret.ext_id_value ++ "\n"
  ++ "Raw Value: " ++ secret.raw_result ++ "\n"
  ++ "File: " ++ secret.file_path ++ "\n"
  ++ (if secret.line_number ≠ "" then "Line: " ++ secret.line_number ++ "\n" else "")
  ++ String.join (secret.extra_info.map (fun p => p.1 ++ ": " ++ p.2 ++ "\n"))
  ++ "Verified: " ++ (if secret.verified then "Yes" else "No") ++ "\n"
  ++ "\n"

/-- Function `generate_unknown_txt` (lines 306-323): the artifact's full content. -/
def generate_unknown_txt (secrets : List SecretEntry) : String :=
  String.join (secrets.map unknown_txt_block)

/-! ### Spec-side notions used by the theorems -/

/-- The report path pattern as the spec describes it: the string decomposes as
`a ++ "extensions/" ++ seg ++ "/" ++ b` with `seg` a non-empty slash-free
segment. -/
def ExtDecomp (s a seg b : List Char) : Prop :=
  s = a ++ extMarker ++ seg ++ '/' :: b ∧ seg ≠ [] ∧ '/' ∉ seg

/-- A string whose first character exists and is not `>`: a line opening with
such a string cannot be the `>>` response-redirect directive. -/
def headOk (s : String) : Bool :=
  match s.data with
  | [] => false
  | c :: _ => c != '>'

/-! ### Concrete inputs used by counterexamples and witnesses -/

/-- A report whose raw value `GET` coincides with static template text. -/
def c1Report : List String :=
  ["Found verified result",
   "Detector Type: OpenAI",
   "Raw result: GET",
   "File: a/extensions/x/f.js"]

/-- The spec's end-to-end scenario: one unverified block, unknown detector. -/
def c2Report : List String :=
  ["Found unverified result",
   "Detector Type: FooBarService",
   "Raw result: xyzsecret",
   "File: /tmp/file.js"]

/-- What the parser produces for `c2Report` (note `verified = true`). -/
def c2Rec : SecretEntry :=
  { detector_type := "FooBarService", raw_result := "xyzsecret",
    file_path := "/tmp/file.js", verified := true }

/-- Two distinct raw values sharing one variable name (`g_openai`). -/
def collisionA : SecretEntry :=
  { detector_type := "OpenAI", raw_result := "A", file_path := "a/extensions/g/f.js" }

def collisionB : SecretEntry :=
  { detector_type := "OpenAI", raw_result := "B", file_path := "a/extensions/g/f.js" }

/-- A known detector type written with a hyphen. -/
def hyphenRec : SecretEntry :=
  { detector_type := "Open-AI", raw_result := "sk-1", file_path := "a/extensions/g/f.js" }

/-- A hyphen-free known record, and the block the writer emits for it. -/
def telegramRec : SecretEntry :=
  { detector_type := "TelegramBotToken", raw_result := "tok9",
    file_path := "b/extensions/tg1/y.js" }

def telegramLines : List String :=
  ["### TelegramBotToken (tg1)",
   "GET https://api.telegram.org/bot\x7b\x7btg1_telegrambottoken\x7d\x7d/getMe HTTP/1.1",
   ">> responses/tg1/telegrambottoken.json",
   ""]

/-- An unknown-type record. -/
def fooRec : SecretEntry :=
  { detector_type := "FooBarService", raw_result := "C", file_path := "/tmp/file.js" }

/-- A list with a duplicated raw value. -/
def dupListDemo : List SecretEntry := [collisionA, collisionB, collisionA]

/-- A mixed known/unknown list. -/
def mixListDemo : List SecretEntry := [collisionA, fooRec]

/-- A record with no file path. -/
def emptyPathRec : SecretEntry := { detector_type := "OpenAI", raw_result := "k" }

/-- A path whose segment after `extensions/` ends the string. -/
def c10wRec : SecretEntry := { file_path := "data/extensions/final" }

/-! ### Helper lemmas: substring search -/

theorem isPrefixOf_extend {p l : List Char} (b : List Char)
    (h : p.isPrefixOf l = true) : p.isPrefixOf (l ++ b) = true := by
  rw [List.isPrefixOf_iff_prefix] at h ⊢
  exact h.trans (List.prefix_append l b)

theorem isPrefixOf_self_append (p b : List Char) : p.isPrefixOf (p ++ b) = true := by
  rw [List.isPrefixOf_iff_prefix]
  exact List.prefix_append p b

theorem containsL_nil_pat (l : List Char) : containsL [] l = true := by
  cases l <;> simp [containsL, List.isPrefixOf]

theorem containsL_of_isPrefixOf {p l : List Char} (h : p.isPrefixOf l = true) :
    containsL p l = true := by
  cases l with
  | nil =>
    cases p with
    | nil => rfl
    | cons c r => simp [List.isPrefixOf] at h
  | cons c r => simp [containsL, h]

theorem containsL_cons {p l : List Char} (c : Char) (h : containsL p l = true) :
    containsL p (c :: l) = true := by
  simp [containsL, h]

theorem containsL_append_left {p a : List Char} (b : List Char)
    (h : containsL p a = true) : containsL p (a ++ b) = true := by
  induction a with
  | nil =>
    have hp : p = [] := by cases p <;> simp_all [containsL]
    subst hp
    simpa using containsL_nil_pat b
  | cons c a ih =>
    simp only [containsL, Bool.or_eq_true] at h
    rcases h with h | h
    · simp only [List.cons_append, containsL, Bool.or_eq_true]
      exact Or.inl (isPrefixOf_extend b h)
    · simp only [List.cons_append, containsL, Bool.or_eq_true]
      exact Or.inr (ih h)

theorem containsL_append_right {p b : List Char} (a : List Char)
    (h : containsL p b = true) : containsL p (a ++ b) = true := by
  induction a with
  | nil => simpa using h
  | cons c a ih =>
    simp only [List.cons_append, containsL, Bool.or_eq_true]
    exact Or.inr ih

/-- Replacement plants the replacement text wherever the pattern occurred. -/
theorem replaceFuel_contains_repl (pat repl : List Char) (hpat : pat ≠ []) :
    ∀ (fuel : Nat) (l : List Char), l.length ≤ fuel → containsL pat l = true →
      containsL repl (replaceFuel pat repl fuel l) = true := by
  intro fuel
  induction fuel with
  | zero =>
    intro l hl hc
    have hnil : l = [] := by cases l <;> simp_all
    subst hnil
    cases pat <;> simp_all [containsL]
  | succ n ih =>
    intro l hl hc
    cases l with
    | nil => cases pat <;> simp_all [containsL]
    | cons c rest =>
      rw [replaceFuel]
      split
      · exact containsL_of_isPrefixOf (isPrefixOf_self_append _ _)
      · next hcond =>
        have hnp : pat.isPrefixOf (c :: rest) = false := by
          cases hp : pat.isPrefixOf (c :: rest)
          · rfl
          · exact absurd ⟨hpat, hp⟩ hcond
        have hc' : containsL pat rest = true := by
          simpa [containsL, hnp] using hc
        have hrest : rest.length ≤ n := by
          simpa using Nat.lt_succ_iff.mp (Nat.lt_of_lt_of_le (by simp) hl)
        exact containsL_cons _ (ih rest hrest hc')

theorem replaceL_contains_repl (pat repl : List Char) (hpat : pat ≠ [])
    (l : List Char) (hc : containsL pat l = true) :
    containsL repl (replaceL pat repl l) = true :=
  replaceFuel_contains_repl pat repl hpat l.length l (Nat.le_refl _) hc

theorem containsL_joinNL_of_mem {p : List Char} :
    ∀ (parts : List String) (s : String), s ∈ parts → containsL p s.data = true →
      containsL p (joinNL parts).data = true := by
  intro parts
  induction parts with
  | nil => intro s hs _; simp at hs
  | cons x t ih =>
    intro s hs hc
    cases t with
    | nil =>
      rw [List.mem_singleton] at hs
      subst hs
      simpa [joinNL, joinSep] using hc
    | cons y t2 =>
      have hdata : (joinNL (x :: y :: t2)).data
          = x.data ++ ('\n' :: (joinNL (y :: t2)).data) := by
        have hnl : ("\n" : String).data = ['\n'] := rfl
        show ((x ++ "\n") ++ joinSep "\n" (y :: t2)).data = _
        rw [String.data_append, String.data_append, List.append_assoc, hnl]
        rfl
      rw [hdata]
      rcases List.mem_cons.mp hs with rfl | hs2
      · exact containsL_append_left _ hc
      · exact containsL_append_right _ (containsL_cons _ (ih s hs2 hc))

/-! ### Helper lemmas: deduplication -/

theorem dedupAux_sublist : ∀ (l : List SecretEntry) (seen : List String),
    (dedupAux seen l).Sublist l := by
  intro l
  induction l with
  | nil => intro seen; simp [dedupAux]
  | cons s rest ih =>
    intro seen
    rw [dedupAux]
    split
    · exact (ih seen).cons s
    · exact (ih _).cons₂ s

theorem mem_dedupAux : ∀ (l : List SecretEntry) (seen : List String) (r : SecretEntry),
    r ∈ dedupAux seen l → r ∈ l ∧ r.raw_result ∉ seen := by
  intro l
  induction l with
  | nil => intro seen r hr; simp [dedupAux] at hr
  | cons s rest ih =>
    intro seen r hr
    rw [dedupAux] at hr
    split at hr
    · obtain ⟨h1, h2⟩ := ih seen r hr
      exact ⟨List.mem_cons_of_mem _ h1, h2⟩
    · next hseen =>
      rcases List.mem_cons.mp hr with rfl | h
      · exact ⟨List.mem_cons_self _ _, hseen⟩
      · obtain ⟨h1, h2⟩ := ih _ r h
        exact ⟨List.mem_cons_of_mem _ h1, fun hmem => h2 (List.mem_cons_of_mem _ hmem)⟩

theorem find?_dedupAux : ∀ (l : List SecretEntry) (seen : List String) (r : SecretEntry),
    r ∈ dedupAux seen l →
    l.find? (fun s => s.raw_result == r.raw_result) = some r := by
  intro l
  induction l with
  | nil => intro seen r hr; simp [dedupAux] at hr
  | cons s rest ih =>
    intro seen r hr
    rw [dedupAux] at hr
    split at hr
    · next hseen =>
      have h2 := (mem_dedupAux rest seen r hr).2
      have hne : (s.raw_result == r.raw_result) = false := by
        rw [beq_eq_false_iff_ne]
        intro he
        exact h2 (he ▸ hseen)
      rw [List.find?_cons, hne]
      exact ih seen r hr
    · next hseen =>
      rcases List.mem_cons.mp hr with rfl | h
      · rw [List.find?_cons, beq_self_eq_true]
      · have h2 := (mem_dedupAux rest _ r h).2
        have hne : (s.raw_result == r.raw_result) = false := by
          rw [beq_eq_false_iff_ne]
          intro he
          exact h2 (by rw [← he]; exact List.mem_cons_self _ _)
        rw [List.find?_cons, hne]
        exact ih _ r h

theorem dedupAux_pairwise : ∀ (l : List SecretEntry) (seen : List String),
    (dedupAux seen l).Pairwise (fun a b => a.raw_result ≠ b.raw_result) := by
  intro l
  induction l with
  | nil => intro seen; simp [dedupAux]
  | cons s rest ih =>
    intro seen
    rw [dedupAux]
    split
    · exact ih seen
    · refine List.Pairwise.cons ?_ (ih _)
      intro r hr he
      exact (mem_dedupAux rest _ r hr).2 (by rw [← he]; exact List.mem_cons_self _ _)

theorem dedupAux_complete : ∀ (l : List SecretEntry) (seen : List String) (r : SecretEntry),
    r ∈ l → r.raw_result ∉ seen →
    ∃ q ∈ dedupAux seen l, q.raw_result = r.raw_result := by
  intro l
  induction l with
  | nil => intro seen r hr; simp at hr
  | cons s rest ih =>
    intro seen r hr hn
    rw [dedupAux]
    split
    · next hseen =>
      rcases List.mem_cons.mp hr with rfl | h
      · exact absurd hseen hn
      · exact ih seen r h hn
    · next hseen =>
      rcases List.mem_cons.mp hr with rfl | h
      · exact ⟨r, List.mem_cons_self _ _, rfl⟩
      · by_cases he : r.raw_result = s.raw_result
        · exact ⟨s, List.mem_cons_self _ _, he.symm⟩
        · have hn' : r.raw_result ∉ s.raw_result :: seen := by
            simp only [List.mem_cons, not_or]
            exact ⟨he, hn⟩
          obtain ⟨q, hq, hqe⟩ := ih _ r h hn'
          exact ⟨q, List.mem_cons_of_mem _ hq, hqe⟩

/-! ### Helper lemmas: the ordered dict -/

theorem lookup_dictInsert : ∀ (m : List (String × String)) (k v k' : String),
    List.lookup k' (dictInsert m k v) = if k = k' then some v else List.lookup k' m := by
  intro m
  induction m with
  | nil =>
    intro k v k'
    by_cases h : k = k'
    · subst h
      simp [dictInsert, List.lookup]
    · have hb : (k' == k) = false := by
        rw [beq_eq_false_iff_ne]
        exact fun he => h he.symm
      simp [dictInsert, List.lookup, hb, h]
  | cons p m ih =>
    obtain ⟨a, b⟩ := p
    intro k v k'
    rw [dictInsert]
    by_cases hak : a = k
    · rw [if_pos (show (a, b).1 = k from hak)]
      subst hak
      by_cases h : a = k'
      · subst h
        simp [List.lookup]
      · have hb : (k' == a) = false := by
          rw [beq_eq_false_iff_ne]
          exact fun he => h he.symm
        simp [List.lookup, hb, h]
    · rw [if_neg (show ¬ (a, b).1 = k from hak)]
      by_cases h : k' = a
      · subst h
        have hne : ¬ k = k' := fun he => hak he.symm
        simp [List.lookup, hne]
      · have hb : (k' == a) = false := by
          rw [beq_eq_false_iff_ne]
          exact h
        simp [List.lookup, hb, ih]

theorem env_fold_untouched : ∀ (l : List SecretEntry) (m : List (String × String)) (k : String),
    (∀ x ∈ l, x.get_variable_name ≠ k) →
    List.lookup k (l.foldl (fun dev s => dictInsert dev s.get_variable_name s.raw_result) m)
      = List.lookup k m := by
  intro l
  induction l with
  | nil => intro m k _; rfl
  | cons a t ih =>
    intro m k h
    rw [List.foldl_cons, ih _ k (fun x hx => h x (List.mem_cons_of_mem _ hx)),
      lookup_dictInsert, if_neg (h a (List.mem_cons_self _ _))]

theorem env_fold_last : ∀ (l : List SecretEntry) (m : List (String × String)) (k : String)
    (s : SecretEntry),
    l.reverse.find? (fun x => x.get_variable_name == k) = some s →
    List.lookup k (l.foldl (fun dev s => dictInsert dev s.get_variable_name s.raw_result) m)
      = some s.raw_result := by
  intro l
  induction l with
  | nil => intro m k s h; simp at h
  | cons a t ih =>
    intro m k s h
    rw [List.reverse_cons, List.find?_append] at h
    rw [List.foldl_cons]
    cases hf : t.reverse.find? (fun x => x.get_variable_name == k) with
    | some q =>
      rw [hf] at h
      simp only [Option.or] at h
      exact ih _ k s (by rw [hf]; exact h)
    | none =>
      rw [hf] at h
      simp only [Option.or] at h
      by_cases hpa : (a.get_variable_name == k) = true
      · simp only [List.find?, hpa] at h
        cases h
        have hnone : ∀ x ∈ t, x.get_variable_name ≠ k := by
          intro x hx
          have := List.find?_eq_none.mp hf x (List.mem_reverse.mpr hx)
          simpa [beq_iff_eq] using this
        rw [env_fold_untouched t _ k hnone, lookup_dictInsert,
          if_pos (beq_iff_eq.mp hpa)]
      · simp only [List.find?, Bool.not_eq_true] at hpa
        simp [List.find?, hpa] at h

/-! ### Helper lemmas: the parser -/

theorem mem_flushEntry : ∀ (cur : Option SecretEntry) (acc : List SecretEntry) (r : SecretEntry),
    r ∈ flushEntry cur acc ↔ r ∈ acc ∨ (cur = some r ∧ r.raw_result ≠ "") := by
  intro cur acc r
  cases cur with
  | none => simp [flushEntry]
  | some e =>
    by_cases h : e.raw_result = ""
    · rw [flushEntry, if_neg (by simpa using h)]
      constructor
      · exact Or.inl
      · rintro (hr | ⟨he, hne⟩)
        · exact hr
        · cases he
          exact absurd h hne
    · rw [flushEntry, if_pos (by simpa using h)]
      rw [List.mem_append, List.mem_singleton]
      constructor
      · rintro (hr | rfl)
        · exact Or.inl hr
        · exact Or.inr ⟨rfl, h⟩
      · rintro (hr | ⟨he, _⟩)
        · exact Or.inl hr
        · cases he
          exact Or.inr rfl

theorem parseLines_raw_nonempty : ∀ (lines : List String) (cur : Option SecretEntry)
    (acc : List SecretEntry),
    (∀ r ∈ acc, r.raw_result ≠ "") → ∀ r ∈ parseLines lines cur acc, r.raw_result ≠ "" := by
  intro lines
  induction lines with
  | nil =>
    intro cur acc hacc r hr
    rw [parseLines] at hr
    rcases (mem_flushEntry cur acc r).mp hr with h | ⟨_, h⟩
    · exact hacc r h
    · exact h
  | cons x rest ih =>
    intro cur acc hacc r hr
    rw [parseLines.eq_def] at hr
    simp only [] at hr
    split at hr
    · refine ih _ _ ?_ r hr
      intro q hq
      rcases (mem_flushEntry cur acc q).mp hq with h | ⟨_, h⟩
      · exact hacc q h
      · exact h
    · cases cur with
      | none => exact ih _ _ hacc r hr
      | some e => exact ih _ _ hacc r hr

/-! ### Helper lemmas: group-id extraction -/

theorem takeWhile_append_cons {seg b : List Char} (hmem : '/' ∉ seg) :
    (seg ++ '/' :: b).takeWhile (fun c => c ≠ '/') = seg := by
  induction seg with
  | nil => simp
  | cons c cs ih =>
    have hc : c ≠ '/' := fun he => hmem (by rw [he]; exact List.mem_cons_self _ _)
    have hcs : '/' ∉ cs := fun hm => hmem (List.mem_cons_of_mem _ hm)
    rw [List.cons_append, List.takeWhile_cons,
      if_pos (show (decide (c ≠ '/')) = true by simp [hc]), ih hcs]

theorem dropWhile_head_false {p : Char → Bool} :
    ∀ (t : List Char) {c : Char} {r : List Char}, t.dropWhile p = c :: r → p c = false := by
  intro t
  induction t with
  | nil => intro c r h; simp at h
  | cons a t ih =>
    intro c r h
    rw [List.dropWhile_cons] at h
    split at h
    · exact ih h
    · next hpa =>
      cases h
      simpa using hpa

theorem drop_length_takeWhile (p : Char → Bool) :
    ∀ t : List Char, t.drop ((t.takeWhile p).length) = t.dropWhile p := by
  intro t
  induction t with
  | nil => rfl
  | cons a t ih =>
    rw [List.takeWhile_cons, List.dropWhile_cons]
    by_cases hpa : p a = true
    · rw [if_pos hpa, if_pos hpa]
      simpa [List.length_cons, List.drop_succ_cons] using ih
    · rw [if_neg hpa, if_neg hpa]
      simp

theorem extMatchAt_of_decomp (seg b : List Char) (hne : seg ≠ []) (hmem : '/' ∉ seg) :
    extMatchAt (extMarker ++ (seg ++ '/' :: b)) = some seg := by
  have hpre : extMarker.isPrefixOf (extMarker ++ (seg ++ '/' :: b)) = true :=
    isPrefixOf_self_append _ _
  rw [extMatchAt, if_pos hpre]
  simp only [List.drop_left, takeWhile_append_cons hmem]
  rw [if_pos ⟨hne, by simp [List.drop_left]⟩]

theorem decomp_of_extMatchAt {s seg : List Char} (h : extMatchAt s = some seg) :
    ∃ b, s = extMarker ++ seg ++ '/' :: b ∧ seg ≠ [] ∧ '/' ∉ seg := by
  rw [extMatchAt] at h
  split at h
  · next hpre =>
    obtain ⟨t, ht⟩ := List.isPrefixOf_iff_prefix.mp hpre
    subst ht
    simp only [List.drop_left] at h
    split at h
    · next hcond =>
      cases h
      obtain ⟨hne, hdrop⟩ := hcond
      rw [drop_length_takeWhile] at hdrop
      cases hd : t.dropWhile (fun c => c ≠ '/') with
      | nil => exact absurd hd hdrop
      | cons c r =>
        have hcfalse := dropWhile_head_false t hd
        have hc : c = '/' := by simpa using hcfalse
        subst hc
        refine ⟨r, ?_, hne, ?_⟩
        · have hsplit : t = t.takeWhile (fun c => c ≠ '/') ++ '/' :: r := by
            conv_lhs => rw [← List.takeWhile_append_dropWhile (fun c => decide (c ≠ '/')) t, hd]
          rw [List.append_assoc]
          exact congrArg (fun z => extMarker ++ z) hsplit
        · intro hm
          have := List.mem_takeWhile_imp hm
          simp at this
    · exact absurd h (by simp)
  · exact absurd h (by simp)

theorem extSearch_cons_of_match {s : List Char} {seg : List Char}
    (h : extMatchAt s = some seg) (hs : s ≠ []) : extSearch s = some seg := by
  cases s with
  | nil => exact absurd rfl hs
  | cons c r => rw [extSearch, h]

theorem extSearch_eq_none_iff : ∀ (s : List Char),
    extSearch s = none ↔ ∀ a seg b, ¬ ExtDecomp s a seg b := by
  intro s
  induction s with
  | nil =>
    simp only [extSearch, true_iff]
    intro a seg b hd
    have hlen := congrArg List.length hd.1
    simp [List.length_append, extMarker] at hlen
    omega
  | cons c r ih =>
    rw [extSearch]
    cases hm : extMatchAt (c :: r) with
    | some seg0 =>
      simp only []
      constructor
      · intro h; exact absurd h (by simp)
      · intro hall
        obtain ⟨b0, heq, hne, hmem⟩ := decomp_of_extMatchAt hm
        exact absurd ⟨by simpa using heq, hne, hmem⟩ (hall [] seg0 b0)
    | none =>
      simp only []
      rw [ih]
      constructor
      · intro h a seg b hd
        obtain ⟨heq, hne, hmem⟩ := hd
        cases a with
        | nil =>
          have hmm : extMatchAt (c :: r) = some seg := by
            rw [show c :: r = extMarker ++ (seg ++ '/' :: b) by
              simpa [List.append_assoc] using heq]
            exact extMatchAt_of_decomp seg b hne hmem
          rw [hm] at hmm
          exact absurd hmm (by simp)
        | cons x a2 =>
          have heq2 : c :: r = x :: (a2 ++ extMarker ++ seg ++ '/' :: b) := by
            simpa [List.cons_append] using heq
          injection heq2 with hcx hr
          exact h a2 seg b ⟨hr, hne, hmem⟩
      · intro h a seg b hd
        exact h (c :: a) seg b ⟨by simp [hd.1, List.cons_append], hd.2.1, hd.2.2⟩

theorem extSearch_leftmost : ∀ (a s seg b : List Char),
    ExtDecomp s a seg b →
    (∀ a' seg' b', ExtDecomp s a' seg' b' → a.length ≤ a'.length) →
    extSearch s = some seg := by
  intro a
  induction a with
  | nil =>
    intro s seg b hd _
    obtain ⟨heq, hne, hmem⟩ := hd
    have hs : s = extMarker ++ (seg ++ '/' :: b) := by
      simpa [List.append_assoc] using heq
    subst hs
    refine extSearch_cons_of_match (extMatchAt_of_decomp seg b hne hmem) ?_
    intro h0
    have := congrArg List.length h0
    simp [List.length_append, extMarker] at this
  | cons x a2 ih =>
    intro s seg b hd hmin
    obtain ⟨heq, hne, hmem⟩ := hd
    have hs : s = x :: (a2 ++ extMarker ++ seg ++ '/' :: b) := by
      simpa [List.cons_append] using heq
    subst hs
    rw [extSearch]
    cases hm : extMatchAt (x :: (a2 ++ extMarker ++ seg ++ '/' :: b)) with
    | some seg0 =>
      exfalso
      obtain ⟨b0, heq0, hne0, hmem0⟩ := decomp_of_extMatchAt hm
      have := hmin [] seg0 b0 ⟨by simpa using heq0, hne0, hmem0⟩
      simp at this
    | none =>
      show extSearch (a2 ++ extMarker ++ seg ++ '/' :: b) = some seg
      refine ih _ seg b ⟨rfl, hne, hmem⟩ ?_
      intro a' seg' b' hd'
      have h1 : (x :: a') ++ extMarker ++ seg' ++ '/' :: b'
          = x :: (a' ++ extMarker ++ seg' ++ '/' :: b') := by
        simp [List.cons_append]
      have := hmin (x :: a') seg' b'
        ⟨by rw [h1]; exact congrArg (fun z => x :: z) hd'.1, hd'.2.1, hd'.2.2⟩
      simpa using this

/-! ### Helper lemmas: classification and the catalog -/

theorem length_filter_split (l : List SecretEntry) (p : SecretEntry → Bool) :
    (l.filter p).length + (l.filter (fun s => !p s)).length = l.length := by
  induction l with
  | nil => rfl
  | cons a t ih =>
    by_cases hp : p a = true
    · simp only [List.filter_cons, hp, Bool.not_true, if_pos, if_neg]
      simp [hp, List.length_cons]
      omega
    · have hp' : p a = false := by simpa using hp
      simp [List.filter_cons, hp', List.length_cons]
      omega

theorem deduplicate_secrets_fst (l : List SecretEntry) :
    (deduplicate_secrets l).1 = (unique_secrets l).filter (fun s => s.is_known_type) := rfl

theorem deduplicate_secrets_snd (l : List SecretEntry) :
    (deduplicate_secrets l).2 = (unique_secrets l).filter (fun s => !s.is_known_type) := rfl

theorem lookup_mem {l : List (String × Endpoint)} {k : String} {e : Endpoint}
    (h : List.lookup k l = some e) : (k, e) ∈ l := by
  induction l with
  | nil => simp at h
  | cons p t ih =>
    obtain ⟨a, b⟩ := p
    by_cases hk : (k == a) = true
    · have hka : k = a := beq_iff_eq.mp hk
      subst hka
      rw [List.lookup, beq_self_eq_true] at h
      cases h
      exact List.mem_cons_self _ _
    · have hk' : (k == a) = false := by simpa using hk
      rw [List.lookup, hk'] at h
      exact List.mem_cons_of_mem _ (ih h)

theorem contains_keys_eq_lookup_isSome :
    ∀ (l : List (String × Endpoint)) (k : String),
      (l.map Prod.fst).contains k = (List.lookup k l).isSome := by
  intro l
  induction l with
  | nil => intro k; rfl
  | cons p t ih =>
    obtain ⟨a, b⟩ := p
    intro k
    show List.elem k (a :: List.map Prod.fst t) = (List.lookup k ((a, b) :: t)).isSome
    rw [List.elem, List.lookup]
    cases hk : k == a
    · exact ih k
    · rfl

theorem headOk_append {a : String} (b : String) (h : headOk a = true) :
    headOk (a ++ b) = true := by
  simp only [headOk] at h ⊢
  rw [String.data_append]
  cases ha : a.data with
  | nil => rw [ha] at h; simp at h
  | cons c r =>
    rw [ha] at h
    rw [List.cons_append]
    exact h

theorem not_startsWith_gtgt {a : String} (h : headOk a = true) :
    strStartsWith a ">>" = false := by
  rw [strStartsWith]
  simp only [headOk] at h
  cases ha : a.data with
  | nil => rw [ha] at h; simp at h
  | cons c r =>
    rw [ha] at h
    have hgt : (">>" : String).data = ['>', '>'] := rfl
    rw [hgt]
    have hcn : c ≠ '>' := by simpa using h
    have hc : ('>' == c) = false := by
      rw [beq_eq_false_iff_ne]
      exact fun he => hcn he.symm
    simp [List.isPrefixOf, hc]

/-- Every catalog template carries the placeholder in its URL or a header. -/
theorem catalog_placeholder_fact :
    API_ENDPOINTS.all (fun p => strContains p.2.url varPat
      || p.2.headers.any (fun h => strContains h.2 varPat)) = true := by decide

/-- No catalog method, header name or body text opens with `>`. -/
theorem catalog_line_fact :
    API_ENDPOINTS.all (fun p => headOk p.2.method
      && p.2.headers.all (fun h => headOk h.1)
      && (match p.2.body with
          | some b => headOk b
          | none => true)) = true := by decide

/-! ### Claim theorems -/

/-- C5: deduplication keeps a subsequence with pairwise-distinct raw values,
one representative per raw value, each the first occurrence with all its
fields intact (`deduplicate_secrets`, lines 222-228). -/
theorem dedup_first_occurrence :
    ∀ secrets : List SecretEntry,
      (unique_secrets secrets).Sublist secrets
      ∧ (unique_secrets secrets).Pairwise (fun a b => a.raw_result ≠ b.raw_result)
      ∧ (∀ r ∈ secrets, ∃ q ∈ unique_secrets secrets, q.raw_result = r.raw_result)
      ∧ (∀ q ∈ unique_secrets secrets,
          secrets.find? (fun s => s.raw_result == q.raw_result) = some q) := by
  intro secrets
  refine ⟨dedupAux_sublist secrets [], dedupAux_pairwise secrets [], ?_, ?_⟩
  · intro r hr
    exact dedupAux_complete secrets [] r hr (by simp)
  · intro q hq
    exact find?_dedupAux secrets [] q hq

theorem dedup_first_occurrence_witness :
    dupListDemo.find? (fun s => s.raw_result == collisionA.raw_result) = some collisionA :=
  (dedup_first_occurrence dupListDemo).2.2.2 collisionA (by decide)

/-- C6: classification is total and exclusive — a deduplicated record lands in
`known` exactly when its normalized detector type is a catalog key, in
`unknown` exactly otherwise; the partition sizes add up and each partition
keeps the deduplicated order (lines 230-234 and 153-156). -/
theorem classification_total_exclusive :
    ∀ secrets : List SecretEntry,
      (∀ r ∈ unique_secrets secrets,
        (r ∈ (deduplicate_secrets secrets).1
          ↔ (API_ENDPOINTS.map Prod.fst).contains (normDetector r.detector_type) = true)
        ∧ (r ∈ (deduplicate_secrets secrets).2
          ↔ (API_ENDPOINTS.map Prod.fst).contains (normDetector r.detector_type) = false))
      ∧ (deduplicate_secrets secrets).1.length + (deduplicate_secrets secrets).2.length
          = (unique_secrets secrets).length
      ∧ (deduplicate_secrets secrets).1.Sublist (unique_secrets secrets)
      ∧ (deduplicate_secrets secrets).2.Sublist (unique_secrets secrets) := by
  intro secrets
  refine ⟨?_, ?_, ?_, ?_⟩
  · intro r hr
    constructor
    · rw [deduplicate_secrets_fst, List.mem_filter]
      constructor
      · rintro ⟨_, hk⟩
        exact hk
      · intro hk
        exact ⟨hr, hk⟩
    · rw [deduplicate_secrets_snd, List.mem_filter]
      constructor
      · rintro ⟨_, hk⟩
        cases hknown : r.is_known_type
        · exact hknown
        · rw [hknown] at hk
          simp at hk
      · intro hk
        refine ⟨hr, ?_⟩
        have hkf : r.is_known_type = false := hk
        rw [hkf]
        rfl
  · rw [deduplicate_secrets_fst, deduplicate_secrets_snd]
    exact length_filter_split _ _
  · rw [deduplicate_secrets_fst]
    exact List.filter_sublist _
  · rw [deduplicate_secrets_snd]
    exact List.filter_sublist _

theorem classification_total_exclusive_witness :
    fooRec ∈ (deduplicate_secrets mixListDemo).2 :=
  (((classification_total_exclusive mixListDemo).1 fooRec (by decide)).2).mpr (by decide)

/-- C8: every record the parser returns has a non-empty raw value, and the
close-a-record step appends the record exactly when its raw value is
non-empty (lines 171-172 and 211-212). -/
theorem parser_keeps_nonempty_raw :
    (∀ (lines : List String) (r : SecretEntry), r ∈ parse_scan_file lines → r.raw_result ≠ "")
    ∧ (∀ (cur : Option SecretEntry) (acc : List SecretEntry) (r : SecretEntry),
        r ∈ flushEntry cur acc ↔ r ∈ acc ∨ (cur = some r ∧ r.raw_result ≠ "")) := by
  constructor
  · intro lines r hr
    exact parseLines_raw_nonempty lines none [] (by simp) r hr
  · exact mem_flushEntry

theorem parser_keeps_nonempty_raw_witness : c2Rec.raw_result ≠ "" :=
  parser_keeps_nonempty_raw.1 c2Report c2Rec (by decide)

/-- C2 (the code's divergence): on a report whose single block opens with the
*unverified* marker, the parser still sets `verified = true`, because
`'verified' in line` (line 176) is also true of `"Found unverified result"`;
the unknown-secrets block therefore ends `Verified: Yes`, not `Verified: No`,
while the scenario's other effects (no HTTP template, no credential-store
entries, exactly one unknown block) do hold. -/
theorem unverified_marker_bug :
    (parse_scan_file c2Report).map (fun e => e.verified) = [true]
    ∧ (deduplicate_secrets (parse_scan_file c2Report)).1 = []
    ∧ generate_converted_http (deduplicate_secrets (parse_scan_file c2Report)).1 = ""
    ∧ env_json_dev (deduplicate_secrets (parse_scan_file c2Report)).1 = []
    ∧ (deduplicate_secrets (parse_scan_file c2Report)).2 = [c2Rec]
    ∧ strContains (generate_unknown_txt (deduplicate_secrets (parse_scan_file c2Report)).2)
        "Verified: Yes" = true
    ∧ strContains (generate_unknown_txt (deduplicate_secrets (parse_scan_file c2Report)).2)
        "Verified: No" = false := by
  set_option maxRecDepth 100000 in decide

/-- C9 (the code's divergence): `generate_env_json` opens the destination in
truncating write mode (line 301), so a failure after zero characters leaves an
empty file — present, but neither the previous complete artifact nor the new
one; only a complete write yields the new artifact. -/
theorem env_store_write_not_atomic :
    env_json_crash_state [collisionB] 0 = ""
    ∧ env_json_text [collisionA] ≠ ""
    ∧ env_json_crash_state [collisionB] 0 ≠ env_json_text [collisionA]
    ∧ env_json_crash_state [collisionB] 0 ≠ env_json_text [collisionB]
    ∧ env_json_crash_state [collisionB] ((env_json_text [collisionB]).data.length)
        = env_json_text [collisionB] := by
  set_option maxRecDepth 100000 in decide

/-- C3 counterexample: two known records with equal variable name
(`g_openai`) but different raw values survive deduplication, and the
credential store keeps only the later value, so the earlier record's raw
value is not what its variable name resolves to. -/
theorem env_store_round_trip_cex :
    (deduplicate_secrets [collisionA, collisionB]).1 = [collisionA, collisionB]
    ∧ collisionA.get_variable_name = "g_openai"
    ∧ collisionB.get_variable_name = "g_openai"
    ∧ strContains (generate_http_request collisionA) (varRef "g_openai") = true
    ∧ List.lookup collisionA.get_variable_name
        (env_json_dev (deduplicate_secrets [collisionA, collisionB]).1) = some "B"
    ∧ collisionA.raw_result = "A"
    ∧ List.lookup collisionA.get_variable_name
        (env_json_dev (deduplicate_secrets [collisionA, collisionB]).1)
        ≠ some collisionA.raw_result := by decide

/-- C3 as amended: every record's variable name is a key of the `dev` object,
and the stored value is the raw value of the **last** record in the list with
that variable name (dict assignment is last-write-wins, lines 297-299). -/
theorem env_store_last_write :
    ∀ (secrets : List SecretEntry) (r : SecretEntry), r ∈ secrets →
      ∃ s : SecretEntry,
        secrets.reverse.find? (fun x => x.get_variable_name == r.get_variable_name) = some s
        ∧ s.get_variable_name = r.get_variable_name
        ∧ List.lookup r.get_variable_name (env_json_dev secrets) = some s.raw_result := by
  intro secrets r hr
  have hsome : (secrets.reverse.find?
      (fun x => x.get_variable_name == r.get_variable_name)).isSome = true := by
    rw [List.find?_isSome]
    exact ⟨r, List.mem_reverse.mpr hr, beq_self_eq_true _⟩
  cases hf : secrets.reverse.find? (fun x => x.get_variable_name == r.get_variable_name) with
  | none => rw [hf] at hsome; simp at hsome
  | some s =>
    refine ⟨s, rfl, ?_, ?_⟩
    · have hps := List.find?_some hf
      exact beq_iff_eq.mp hps
    · exact env_fold_last secrets [] _ s hf

theorem env_store_last_write_witness :
    ∃ s : SecretEntry,
      ([collisionA, collisionB].reverse.find?
        (fun x => x.get_variable_name == collisionB.get_variable_name)) = some s
      ∧ s.get_variable_name = collisionB.get_variable_name
      ∧ List.lookup collisionB.get_variable_name (env_json_dev [collisionA, collisionB])
          = some s.raw_result :=
  env_store_last_write [collisionA, collisionB] collisionB (by decide)

/-- C7: group resolution returns the captured segment of the leftmost
`extensions/<segment>/` pattern, and the sentinel `unknown` for an empty path
or a path without the pattern; in particular the spec's two examples hold
(`extract_extension_id`, lines 136-145). -/
theorem resolve_group_spec :
    (∀ (e : SecretEntry) (a seg b : List Char),
        ExtDecomp e.file_path.data a seg b →
        (∀ a' seg' b', ExtDecomp e.file_path.data a' seg' b' → a.length ≤ a'.length) →
        e.extract_extension_id = ⟨seg⟩)
    ∧ (∀ e : SecretEntry, e.file_path = "" → e.extract_extension_id = "unknown")
    ∧ (∀ e : SecretEntry, (∀ a seg b, ¬ ExtDecomp e.file_path.data a seg b) →
        e.extract_extension_id = "unknown")
    ∧ ({ file_path := "foo/extensions/abc123/src/file.js" } : SecretEntry).extract_extension_id
        = "abc123"
    ∧ ({ file_path := "/tmp/file.js" } : SecretEntry).extract_extension_id = "unknown" := by
  refine ⟨?_, ?_, ?_, by decide, by decide⟩
  · intro e a seg b hd hmin
    have hne : e.file_path ≠ "" := by
      intro h0
      have hd1 := hd.1
      rw [h0] at hd1
      have hlen := congrArg List.length hd1
      have hemp : ("" : String).data = [] := rfl
      rw [hemp] at hlen
      simp [List.length_append, extMarker] at hlen
      omega
    rw [SecretEntry.extract_extension_id, if_neg hne, extSearch_leftmost a _ seg b hd hmin]
  · intro e h
    rw [SecretEntry.extract_extension_id, if_pos h]
  · intro e hno
    by_cases h : e.file_path = ""
    · rw [SecretEntry.extract_extension_id, if_pos h]
    · rw [SecretEntry.extract_extension_id, if_neg h, (extSearch_eq_none_iff _).mpr hno]

theorem resolve_group_spec_witness : emptyPathRec.extract_extension_id = "unknown" :=
  resolve_group_spec.2.1 emptyPathRec rfl

/-- C10: the captured segment must be followed by a slash — when the segment
after the path's only `extensions/` occurrence runs to the end of the string
with no trailing slash, resolution yields `unknown` (lines 142-145). -/
theorem resolve_group_trailing_slash :
    ({ file_path := "foo/extensions/abc123" } : SecretEntry).extract_extension_id = "unknown"
    ∧ ∀ (e : SecretEntry) (a seg : List Char),
        e.file_path.data = a ++ extMarker ++ seg →
        '/' ∉ seg →
        (∀ n, n ≤ e.file_path.data.length →
          extMarker.isPrefixOf (e.file_path.data.drop n) = true → n = a.length) →
        e.extract_extension_id = "unknown" := by
  constructor
  · decide
  · intro e a seg heq hmem huniq
    have hno : ∀ a' seg' b', ¬ ExtDecomp e.file_path.data a' seg' b' := by
      rintro a' seg' b' ⟨heq', hne', hmem'⟩
      have hpre : extMarker.isPrefixOf (e.file_path.data.drop a'.length) = true := by
        rw [heq', List.append_assoc, List.append_assoc, List.drop_left]
        rw [← List.append_assoc]
        exact isPrefixOf_self_append _ _
      have hlen' : a'.length ≤ e.file_path.data.length := by
        rw [heq']
        simp [List.length_append]
      have hlen_eq := huniq a'.length hlen' hpre
      have ha : a' = a := by
        have h1 : e.file_path.data.take a'.length = a' := by
          rw [heq', List.append_assoc, List.append_assoc, List.take_left]
        have h2 : e.file_path.data.take a.length = a := by
          rw [heq, List.append_assoc, List.take_left]
        rw [← h1, hlen_eq, h2]
      subst ha
      have hc : seg = seg' ++ '/' :: b' := by
        have hcombined := heq.symm.trans heq'
        simp only [List.append_assoc] at hcombined
        exact List.append_cancel_left (List.append_cancel_left hcombined)
      exact hmem (by rw [hc]; exact List.mem_append_right _ (List.mem_cons_self _ _))
    have hne0 : e.file_path ≠ "" := by
      intro h0
      rw [h0] at heq
      have hemp : ("" : String).data = [] := rfl
      rw [hemp] at heq
      have hlen := congrArg List.length heq
      simp [List.length_append, extMarker] at hlen
      omega
    rw [SecretEntry.extract_extension_id, if_neg hne0, (extSearch_eq_none_iff _).mpr hno]

theorem resolve_group_trailing_slash_witness : c10wRec.extract_extension_id = "unknown" :=
  resolve_group_trailing_slash.2 c10wRec "data/".data "final".data (by decide) (by decide)
    (by decide)

/-- C4 counterexample: for detector type `Open-AI` — whose catalog key
`openai` is known, so a block is emitted — the redirect path keeps the hyphen
(`open-ai.json`); the claimed hyphen-free form does not occur in the block. -/
theorem http_redirect_hyphen_cex :
    strContains (generate_http_request hyphenRec) ">> responses/g/open-ai.json" = true
    ∧ strContains (generate_http_request hyphenRec) ">> responses/g/openai.json" = false
    ∧ generate_http_request hyphenRec ≠ "" := by
  set_option maxRecDepth 100000 in decide

/-- C4 as amended: in every emitted block the response-redirect directive —
the unique line opening with `>>` — is
`>> responses/<groupId>/<detectorType lowercased with spaces removed>.json`;
hyphens in the detector type are retained (line 247 removes only spaces,
unlike the variable-name normalization of line 150). -/
theorem http_redirect_line_form :
    ∀ (secret : SecretEntry) (ls : List String), httpRequestLines secret = some ls →
      ((">> responses/" ++ secret.ext_id_value ++ "/"
          ++ (⟨(secret.detector_type.data.map Char.toLower).filter (fun c => c ≠ ' ')⟩ : String)
          ++ ".json") ∈ ls
        ∧ ∀ l ∈ ls, strStartsWith l ">>" = true →
            l = ">> responses/" ++ secret.ext_id_value ++ "/"
                ++ (⟨(secret.detector_type.data.map Char.toLower).filter (fun c => c ≠ ' ')⟩ : String)
                ++ ".json") := by
  intro secret ls h
  rw [httpRequestLines] at h
  cases hlk : List.lookup (normDetector secret.detector_type) API_ENDPOINTS with
  | none => rw [hlk] at h; exact absurd h (by simp)
  | some e =>
    rw [hlk] at h
    simp only [Option.some.injEq] at h
    subst h
    have hmem_e := lookup_mem hlk
    have hfact := List.all_eq_true.mp catalog_line_fact _ hmem_e
    simp only [Bool.and_eq_true] at hfact
    obtain ⟨⟨hm, hh⟩, hb⟩ := hfact
    constructor
    · simp
    · intro l hl hst
      have hsep : headOk ("### " ++ secret.detector_type ++ " ("
          ++ secret.ext_id_value ++ ")") = true :=
        headOk_append _ (headOk_append _ (headOk_append _
          (headOk_append _ (by decide))))
      have hreq : headOk (e.method ++ " "
          ++ strReplace e.url varPat (varRef secret.get_variable_name) ++ " HTTP/1.1") = true :=
        headOk_append _ (headOk_append _ (headOk_append _ hm))
      cases hbody : e.body with
      | none =>
        rw [hbody] at hl
        simp only [List.append_nil, List.mem_append, List.mem_cons, List.mem_singleton,
          List.not_mem_nil, or_false] at hl
        rcases hl with (((hl | hl) | hmap) | hl) | hl
        · subst hl; rw [not_startsWith_gtgt hsep] at hst; simp at hst
        · subst hl; rw [not_startsWith_gtgt hreq] at hst; simp at hst
        · rw [List.mem_map] at hmap
          obtain ⟨p, hp, rfl⟩ := hmap
          have hph := List.all_eq_true.mp hh p hp
          rw [not_startsWith_gtgt (headOk_append _ (headOk_append _ hph))] at hst
          simp at hst
        · exact hl
        · subst hl; exact absurd hst (by decide)
      | some bstr =>
        rw [hbody] at hl hb
        simp only [List.mem_append, List.mem_cons, List.mem_singleton,
          List.not_mem_nil, or_false] at hl
        rcases hl with ((((hl | hl) | hmap) | hl) | hl | hl) | hl
        · subst hl; rw [not_startsWith_gtgt hsep] at hst; simp at hst
        · subst hl; rw [not_startsWith_gtgt hreq] at hst; simp at hst
        · rw [List.mem_map] at hmap
          obtain ⟨p, hp, rfl⟩ := hmap
          have hph := List.all_eq_true.mp hh p hp
          rw [not_startsWith_gtgt (headOk_append _ (headOk_append _ hph))] at hst
          simp at hst
        · exact hl
        · subst hl; exact absurd hst (by decide)
        · subst hl; rw [not_startsWith_gtgt hb] at hst; simp at hst
        · subst hl; exact absurd hst (by decide)

theorem http_redirect_line_form_witness :
    (">> responses/" ++ telegramRec.ext_id_value ++ "/"
      ++ (⟨(telegramRec.detector_type.data.map Char.toLower).filter (fun c => c ≠ ' ')⟩ : String)
      ++ ".json") ∈ telegramLines :=
  (http_redirect_line_form telegramRec telegramLines (by decide)).1

/-- C1 counterexample: a record whose raw value is the literal `GET` parses,
classifies as known, and the generated HTTP-template artifact contains that
raw value as a substring (it coincides with the request method in the static
template text), so the literal substring-scan form of the invariant fails. -/
theorem http_template_raw_substring_cex :
    (parse_scan_file c1Report).map (fun e => e.raw_result) = ["GET"]
    ∧ strContains (generate_converted_http (deduplicate_secrets (parse_scan_file c1Report)).1)
        "GET" = true := by
  set_option maxRecDepth 100000 in decide

/-- The writer's fold ignores `raw_result`: rewriting every record's raw
value leaves the accumulated artifact unchanged. -/
theorem gch_fold_raw_irrelevant :
    ∀ (l : List SecretEntry) (f : SecretEntry → String) (acc : String),
    (l.map (fun s => { s with raw_result := f s })).foldl
      (fun acc s =>
        let request := generate_http_request s
        if request ≠ "" then acc ++ request ++ "\n" else acc) acc
    = l.foldl
      (fun acc s =>
        let request := generate_http_request s
        if request ≠ "" then acc ++ request ++ "\n" else acc) acc := by
  intro l
  induction l with
  | nil => intro f acc; rfl
  | cons a t ih =>
    intro f acc
    rw [List.map_cons, List.foldl_cons, List.foldl_cons]
    exact ih f _

/-- If a line of the block contains the pattern, the whole rendered block
contains it. -/
theorem contains_generate_of_mem_lines {s : SecretEntry} {ls : List String} {pat : String}
    (h : httpRequestLines s = some ls) (l : String) (hl : l ∈ ls)
    (hc : containsL pat.data l.data = true) :
    strContains (generate_http_request s) pat = true := by
  rw [generate_http_request, h]
  show containsL pat.data (joinNL ls).data = true
  exact containsL_joinNL_of_mem ls l hl hc

/-- C1 as amended: the HTTP-template artifact never interpolates a raw value
— its content is unchanged under arbitrary rewriting of every record's
`raw_result` — and every emitted block carries the `{{variableName}}`
reference produced by substituting the template placeholder. -/
theorem http_template_redacted :
    (∀ (secrets : List SecretEntry) (f : SecretEntry → String),
        generate_converted_http (secrets.map (fun s => { s with raw_result := f s }))
          = generate_converted_http secrets)
    ∧ (∀ s : SecretEntry, s.is_known_type = true →
        strContains (generate_http_request s) (varRef s.get_variable_name) = true) := by
  constructor
  · intro secrets f
    exact gch_fold_raw_irrelevant secrets f ""
  · intro s hknown
    have hsome : (List.lookup (normDetector s.detector_type) API_ENDPOINTS).isSome = true := by
      rw [← contains_keys_eq_lookup_isSome]
      exact hknown
    cases hlk : List.lookup (normDetector s.detector_type) API_ENDPOINTS with
    | none => rw [hlk] at hsome; simp at hsome
    | some e =>
      have hlines : httpRequestLines s = some
          (["### " ++ s.detector_type ++ " (" ++ s.ext_id_value ++ ")",
            e.method ++ " " ++ strReplace e.url varPat (varRef s.get_variable_name)
              ++ " HTTP/1.1"]
           ++ e.headers.map (fun p => p.1 ++ ": "
                ++ strReplace p.2 varPat (varRef s.get_variable_name))
           ++ [">> responses/" ++ s.ext_id_value ++ "/"
                ++ (⟨(s.detector_type.data.map Char.toLower).filter (fun c => c ≠ ' ')⟩ : String)
                ++ ".json"]
           ++ (match e.body with
               | some b => ["", b]
               | none => [])
           ++ [""]) := by
        rw [httpRequestLines, hlk]
      have hmem_e := lookup_mem hlk
      have hfact := List.all_eq_true.mp catalog_placeholder_fact _ hmem_e
      rw [Bool.or_eq_true] at hfact
      rcases hfact with hurl | hhdr
      · refine contains_generate_of_mem_lines hlines
          (e.method ++ " " ++ strReplace e.url varPat (varRef s.get_variable_name)
            ++ " HTTP/1.1") ?_ ?_
        · simp
        · rw [String.data_append, String.data_append]
          refine containsL_append_left _ (containsL_append_right _ ?_)
          show containsL (varRef s.get_variable_name).data
            (replaceL varPat.data (varRef s.get_variable_name).data e.url.data) = true
          exact replaceL_contains_repl _ _ (by decide) _ hurl
      · rw [List.any_eq_true] at hhdr
        obtain ⟨p, hp, hcp⟩ := hhdr
        refine contains_generate_of_mem_lines hlines
          (p.1 ++ ": " ++ strReplace p.2 varPat (varRef s.get_variable_name)) ?_ ?_
        · refine List.mem_append_left _ (List.mem_append_left _
            (List.mem_append_left _ (List.mem_append_right _ ?_)))
          exact List.mem_map_of_mem _ hp
        · rw [String.data_append]
          refine containsL_append_right _ ?_
          show containsL (varRef s.get_variable_name).data
            (replaceL varPat.data (varRef s.get_variable_name).data p.2.data) = true
          exact replaceL_contains_repl _ _ (by decide) _ hcp

theorem http_template_redacted_witness :
    strContains (generate_http_request collisionA) (varRef collisionA.get_variable_name)
      = true :=
  http_template_redacted.2 collisionA (by decide)

end ConvertSecrets
